import Mathlib

/-
  Verification development for the caustics gravitational-lens simulation
  toolkit: the parameter resolution graph (Parameter / Module tree, Packer)
  and the multiplane ray-tracing protocol (active plane chain, forward
  ray-tracing root search), together with the `LensTwoSources` simulator
  from the multi-source tutorial.
-/

namespace Caustics

/-- Modelled from the spec: a Parameter is a named scalar/tensor slot, either
dynamic (`value = none`, supplied at call time) or static (`value = some v`,
fixed).  Its element count is the product of its shape (1 for a scalar).
The Parameter class of the caustics library is not under src/. -/
structure Param where
  name : String
  shape : List Nat
  value : Option (List ℚ)
deriving DecidableEq

/-- Modelled from the spec: element count of a Parameter, the product of its
shape, or 1 for a scalar (empty shape). -/
def Param.count (p : Param) : Nat := p.shape.prod

/-- Modelled from the spec: a Parameter is dynamic exactly when it has no
stored value. -/
def Param.isDynamic (p : Param) : Bool := p.value.isNone

/-- Modelled from the spec: a Module is a named node owning an ordered list
of Parameters (declaration order is significant) and an ordered list of
child Modules.  The Parametrized/Module class of the caustics library is
not under src/. -/
inductive Module where
  | node (name : String) (params : List Param) (children : List Module)

/-- Name accessor of a Module. -/
def Module.mname : Module → String
  | .node n _ _ => n

mutual

/-- Modelled from the spec: pre-order listing of every Parameter of the
tree tagged with its owning module name: a Module's own parameters in
declaration order, then its children in declared order. -/
def Module.paramsPre : Module → List (String × Param)
  | .node n ps cs => ps.map (fun p => (n, p)) ++ paramsPreList cs

/-- Pre-order parameter listing of a forest, children visited in declared
order. -/
def paramsPreList : List Module → List (String × Param)
  | [] => []
  | c :: cs => c.paramsPre ++ paramsPreList cs

end

/-- A slot of the Packed View: qualified name (owning module name, parameter
name) and required element count. -/
structure Slot where
  moduleName : String
  paramName : String
  count : Nat
deriving DecidableEq

/-- Qualified name of a packed slot. -/
def Slot.key (s : Slot) : String × String := (s.moduleName, s.paramName)

/-- The packed slot of one pre-order entry: a dynamic Parameter contributes
its qualified name and required element count, a static one contributes
nothing. -/
def packEntry (e : String × Param) : Option Slot :=
  if e.2.isDynamic then some ⟨e.1, e.2.name, e.2.count⟩ else none

/-- Modelled from the spec: the Packed View (`pack`).  Traverse the tree in
declared pre-order and, for each Parameter currently dynamic, append its
qualified name and required element count. -/
def Module.pack (t : Module) : List Slot :=
  t.paramsPre.filterMap packEntry

/-- Total element count of the Packed View. -/
def Module.totalCount (t : Module) : Nat := (t.pack.map Slot.count).sum

/-- Modelled from the spec: the resolution-time error taxonomy of the Packer
(the library's error classes are not under src/). -/
inductive ResolveError where
  | lengthMismatchError
  | unknownParameterError (key : String × String)
  | staticParameterOverrideError (key : String × String)
deriving DecidableEq

/-- A resolved context: for every Parameter of the tree, in pre-order, its
qualified name and its concrete value for this one computation (`none` for a
dynamic parameter left unsupplied, which fails lazily only when read). -/
abbrev Ctx : Type := List ((String × String) × Option (List ℚ))

/-- Modelled from the spec: consume an ordered value sequence into the
parameters in pre-order — a static parameter keeps its fixed value, a
dynamic parameter consumes exactly its element count from the front of the
sequence. -/
def buildCtxVec : List (String × Param) → List ℚ → Ctx
  | [], _ => []
  | (mn, p) :: rest, v =>
    match p.value with
    | some w => ((mn, p.name), some w) :: buildCtxVec rest v
    | none => ((mn, p.name), some (v.take p.count)) :: buildCtxVec rest (v.drop p.count)

/-- Modelled from the spec: `resolve` on an ordered sequence: fails with a
length mismatch unless the input length exactly equals the sum of required
counts, else consumes exactly `count` elements per dynamic Parameter in
packed order. -/
def Module.resolveVector (t : Module) (v : List ℚ) : Except ResolveError Ctx :=
  if v.length = t.totalCount then .ok (buildCtxVec t.paramsPre v)
  else .error .lengthMismatchError

/-- Association-list lookup by qualified name. -/
def alookup {α : Type} : List ((String × String) × α) → (String × String) → Option α
  | [], _ => none
  | (k, a) :: l, k0 => if k = k0 then some a else alookup l k0

/-- Modelled from the spec: locate the Parameter named by a qualified path
(first match in pre-order). -/
def Module.findParam (t : Module) (k : String × String) : Option Param :=
  (t.paramsPre.find? (fun e => e.1 = k.1 ∧ e.2.name = k.2)).map (·.2)

/-- Modelled from the spec: validate the qualified names of a mapping in
order: a name matching no Parameter path raises the unknown-parameter
error, a name matching a currently static Parameter raises the
static-override error. -/
def validateKeys (t : Module) : List (String × String) → Except ResolveError Unit
  | [] => .ok ()
  | k :: ks =>
    match t.findParam k with
    | none => .error (.unknownParameterError k)
    | some p =>
      if p.isDynamic then validateKeys t ks
      else .error (.staticParameterOverrideError k)

/-- Modelled from the spec: build the resolved context from a keyed
assignment: a static parameter keeps its fixed value, a dynamic parameter
takes the mapping's value for its qualified name when present. -/
def buildCtxMap (l : List (String × Param)) (assign : (String × String) → Option (List ℚ)) : Ctx :=
  l.map (fun e =>
    ((e.1, e.2.name),
      match e.2.value with
      | some w => some w
      | none => assign (e.1, e.2.name)))

/-- Modelled from the spec: `resolve` on a nested mapping keyed by module
name then parameter name (flattened here to qualified-name keys): validate
every key, then resolve each dynamic parameter by lookup; a dynamic
parameter absent from the mapping stays unresolved (lazy fail). -/
def Module.resolveMapping (t : Module) (m : List ((String × String) × List ℚ)) :
    Except ResolveError Ctx :=
  match validateKeys t (m.map Prod.fst) with
  | .error e => .error e
  | .ok _ => .ok (buildCtxMap t.paramsPre (alookup m))

/-- Slice an ordered value sequence along the Packed View: the nested
mapping carrying the same values as the flat vector. -/
def sliceAssign : List Slot → List ℚ → List ((String × String) × List ℚ)
  | [], _ => []
  | s :: ss, v => (s.key, v.take s.count) :: sliceAssign ss (v.drop s.count)

mutual

/-- Modelled from the spec: direct external assignment to a Parameter
(assign `None` to make it dynamic, a concrete value to make it static);
every Parameter of the tree whose owning module name and local name match
the path is updated, the rest of the tree is unchanged. -/
def Module.setParamValue : Module → String → String → Option (List ℚ) → Module
  | .node n ps cs, mn, pn, v =>
    .node n
      (ps.map (fun p => if n = mn ∧ p.name = pn then { p with value := v } else p))
      (setParamValueList cs mn pn v)

/-- Parameter assignment over a forest. -/
def setParamValueList : List Module → String → String → Option (List ℚ) → List Module
  | [], _, _, _ => []
  | c :: cs, mn, pn, v => c.setParamValue mn pn v :: setParamValueList cs mn pn v

end

/-- Erase the payload of a static value to a canonical one, keeping the
name, the shape and the dynamic flag. -/
def eraseP (p : Param) : Param := { p with value := p.value.map (fun _ => []) }

mutual

/-- The static/dynamic configuration of a tree: names, shapes and dynamic
flags, with the payload of every static value erased to a canonical one. -/
def Module.eraseStatic : Module → Module
  | .node n ps cs => .node n (ps.map eraseP) (eraseStaticList cs)

/-- Static-payload erasure over a forest. -/
def eraseStaticList : List Module → List Module
  | [] => []
  | c :: cs => c.eraseStatic :: eraseStaticList cs

end

/-- Modelled from the spec: a Plane is a single lens redshift slice
aggregating the mass-distribution capabilities at that redshift (the
capabilities themselves are external; a tag stands for them here).  The
Multiplane lens class of the caustics library is not under src/. -/
structure Plane where
  redshift : ℚ
  tag : Nat
deriving DecidableEq

/-- Ordering of planes by redshift. -/
def planeLE (p q : Plane) : Prop := p.redshift ≤ q.redshift

instance : DecidableRel planeLE :=
  fun p q => inferInstanceAs (Decidable (p.redshift ≤ q.redshift))

instance : IsTotal Plane planeLE := ⟨fun p q => le_total p.redshift q.redshift⟩

instance : IsTrans Plane planeLE := ⟨fun _ _ _ h1 h2 => le_trans h1 h2⟩

/-- Modelled from the spec: the active chain of a multiplane raytrace call:
order the Planes ascending by redshift and exclude every plane with
redshift at or beyond the requested source redshift (lensing only occurs
between observer and source). -/
def activeChain (planes : List Plane) (z_s : ℚ) : List Plane :=
  (List.insertionSort planeLE planes).filter (fun p => decide (p.redshift < z_s))

/-- An angular point in the image or source plane; coordinates are
integers in units of an arbitrarily fine angular grid (the search policy
under verification is independent of the numeric grain). -/
abbrev Point := ℤ × ℤ

/-- Absolute value written out as a conditional. -/
def iabs (x : ℤ) : ℤ := if x < 0 then -x else x

/-- Chebyshev distance between two angular points. -/
def cheb (p q : Point) : ℤ :=
  if iabs (p.1 - q.1) ≤ iabs (p.2 - q.2) then iabs (p.2 - q.2)
  else iabs (p.1 - q.1)

/-- Two points agree within an absolute tolerance. -/
def near (δ : ℤ) (p q : Point) : Prop := cheb p q ≤ δ

instance (δ : ℤ) (p q : Point) : Decidable (near δ p q) :=
  inferInstanceAs (Decidable (cheb p q ≤ δ))

/-- Modelled from the spec: the local multivariate root-finder run from one
seed with a fixed iteration budget.  The numerical update rule `upd` is an
external capability; convergence means the recovered source position
`f x` matches the target within the caller-tunable absolute tolerance;
a seed whose budget runs out without convergence yields `none`. -/
def rootfind (f upd : Point → Point) (beta : Point) (tol : ℤ) :
    Nat → Point → Option Point
  | 0, x => if near tol (f x) beta then some x else none
  | Nat.succ n, x =>
    if near tol (f x) beta then some x else rootfind f upd beta tol n (upd x)

/-- Modelled from the spec: deduplication of converged roots within a
distance tolerance, keeping the first representative of each cluster. -/
def dedupeAcc (δ : ℤ) (acc : List Point) : List Point → List Point
  | [] => acc.reverse
  | p :: ps =>
    if acc.any (fun y => decide (near δ y p)) then dedupeAcc δ acc ps
    else dedupeAcc δ (p :: acc) ps

/-- Deduplicate a list of roots within a distance tolerance. -/
def dedupe (δ : ℤ) (l : List Point) : List Point := dedupeAcc δ [] l

/-- Modelled from the spec: `forward_raytrace`: given a target source-plane
point, run the local root-finder from each seed independently, drop every
non-convergent seed silently, deduplicate the surviving roots within the
distance tolerance, and return the distinct roots.  The forward_raytrace
method of the caustics library is not under src/. -/
def forward_raytrace (f upd : Point → Point) (beta : Point) (seeds : List Point)
    (budget : Nat) (tol δ : ℤ) : List Point :=
  dedupe δ (seeds.filterMap (rootfind f upd beta tol budget))

/-- Modelled from the spec: deterministic quasi-random seeding over the
caller-supplied field of view, a function of the explicit seeding inputs
only. -/
def seedGrid (fov : ℤ) (n_init : Nat) : List Point :=
  (List.range n_init).map (fun i =>
    (-(fov / 2) + fov * (i + 1) / (n_init + 1),
     -(fov / 2) + fov * (((i * 7) % n_init) + 1) / (n_init + 1)))

/-- Modelled from the spec: a complete `forward_raytrace` call made by a
caller process whose ambient global random state is `g`: the seeds are
generated only from the explicitly supplied field of view and seed count,
and the global random state is never consulted. -/
def forward_raytrace_call (_g : Nat) (f upd : Point → Point) (beta : Point)
    (fov : ℤ) (n_init budget : Nat) (tol δ : ℤ) : List Point :=
  forward_raytrace f upd beta (seedGrid fov n_init) budget tol δ

/-- Modelled from the spec: the physical parameters of the tutorial's SIE
lens, excluding the stored source-redshift parameter (the deflection
capability is a pure function of these and of the effective source
redshift). -/
structure SIEParams where
  z_l : ℚ
  x0 : ℚ
  y0 : ℚ
  q : ℚ
  phi : ℚ
  sigma_v : ℚ
deriving DecidableEq

/-- Modelled from the spec: the SIE lens Module as configured in the
multi-source tutorial: physical parameters plus a stored `z_s` Parameter
(set static to a sentinel value there). -/
structure SIE where
  params : SIEParams
  z_s : ℚ
deriving DecidableEq

/-- Modelled from the spec: the lens equation raytrace with a per-call
keyword override of `z_s`: the effective source redshift is the explicit
keyword argument when given, else the stored Parameter's value; the
deflection is an external capability `alpha` of the physical parameters and
the effective source redshift; the computation treats the tree as an
immutable snapshot, so the lens state comes back unchanged. -/
def raytraceSIE (alpha : SIEParams → ℚ → Point → Point) (lens : SIE)
    (theta : Point) (zOverride : Option ℚ) : Point × SIE :=
  let z := match zOverride with
    | some z => z
    | none => lens.z_s
  let a := alpha lens.params z theta
  ((theta.1 - a.1, theta.2 - a.2), lens)

/-- The state of the `LensTwoSources` simulator of the multi-source
tutorial: the lens and the two source redshift Parameters. -/
structure LTS where
  lens : SIE
  z_s1 : ℚ
  z_s2 : ℚ
deriving DecidableEq

/-- Embedded from src/unnamed/part_001 (`LensTwoSources.__call__`): the
brightness starts at zero; if `source1` is set, raytrace the image grid
with `z_s` overridden to `z_s1` for this one call and add the first
source's brightness; if `source2` is set, likewise with `z_s2` and the
second source; the simulator state is handed back unchanged (the missing
`@forward` machinery is modelled from the spec's immutable-snapshot rule).
The brightness capabilities `br1`, `br2` are external. -/
def ltsCall (alpha : SIEParams → ℚ → Point → Point) (br1 br2 : Point → ℚ)
    (grid : List Point) (s : LTS) (source1 source2 : Bool) :
    List ℚ × LTS :=
  let mu := grid.map (fun theta =>
    (if source1 then br1 (raytraceSIE alpha s.lens theta (some s.z_s1)).1 else 0) +
    (if source2 then br2 (raytraceSIE alpha s.lens theta (some s.z_s2)).1 else 0))
  (mu, s)

/-- Modelled from the spec: qualified names are globally unique after
composition into a tree (an owner is renamed to disambiguate collisions);
well-formedness of a tree states exactly this uniqueness. -/
def Module.wellFormed (t : Module) : Prop :=
  (t.paramsPre.map (fun e => (e.1, e.2.name))).Nodup

instance (t : Module) : Decidable t.wellFormed :=
  inferInstanceAs (Decidable (List.Nodup _))

/-- A qualified name acceptable as packing input: it locates a Parameter
and that Parameter is currently dynamic. -/
def Module.goodKey (t : Module) (k : String × String) : Prop :=
  ∃ p, t.findParam k = some p ∧ p.isDynamic = true

/-- A small concrete Module tree exercising the identity round trip. -/
def demoTree2 : Module :=
  .node "sim" [⟨"z_s", [], none⟩]
    [.node "SIE" [⟨"x0", [], some [(1 : ℚ)]⟩, ⟨"q", [], none⟩] []]

/-- Intended values for the dynamic parameters of `demoTree2`. -/
def demoVal2 : (String × String) → List ℚ := fun k =>
  if k = ("sim", "z_s") then [(2 : ℚ)]
  else if k = ("SIE", "q") then [(5 : ℚ)] else []

/-- A small concrete Module tree exercising vector/mapping equivalence. -/
def demoTree5 : Module :=
  .node "sim" [⟨"lambda", [], none⟩]
    [.node "lens" [⟨"y0", [], some [(1 : ℚ)]⟩, ⟨"b", [], none⟩] []]

/-- A small concrete Module tree exercising the static-and-back flip. -/
def demoTree7 : Module :=
  .node "lenslight" [⟨"x0", [], none⟩, ⟨"Re", [], some [(1 : ℚ)]⟩] []

/-- A one-parameter tree whose single Parameter is static. -/
def demoTree9 : Module := .node "mylens" [⟨"q", [], some [(2 : ℚ)]⟩] []

/-- A mapping that tries to override the static Parameter of
`demoTree9`. -/
def demoMap9 : List ((String × String) × List ℚ) := [(("mylens", "q"), [(1 : ℚ)])]

/-- Structural induction principle for Module trees: to prove a property of
every tree it suffices to prove it at a node assuming it for every child. -/
theorem Module.ind (P : Module → Prop)
    (h : ∀ n ps cs, (∀ c ∈ cs, P c) → P (.node n ps cs)) :
    ∀ m : Module, P m
  | .node n ps cs => h n ps cs (fun c hc => Module.ind P h c)
termination_by m => sizeOf m
decreasing_by
  simp only [Module.node.sizeOf_spec]
  have := List.sizeOf_lt_of_mem hc
  omega

/-- C4: for every multiplane raytrace call with source redshift `z_s`,
exactly the planes with redshift at or beyond `z_s` are excluded from the
active chain (the chain is a permutation of the planes with redshift below
`z_s`), and the remaining planes are processed in ascending redshift
order. -/
theorem active_chain_excludes_and_sorts (planes : List Plane) (z_s : ℚ) :
    (∀ p ∈ activeChain planes z_s, p.redshift < z_s) ∧
    List.Perm (activeChain planes z_s)
      (planes.filter (fun p => decide (p.redshift < z_s))) ∧
    List.Sorted planeLE (activeChain planes z_s) := by
  refine ⟨?_, ?_, ?_⟩
  · intro p hp
    exact of_decide_eq_true (List.mem_filter.mp hp).2
  · exact (List.perm_insertionSort planeLE planes).filter _
  · exact List.Pairwise.sublist (List.filter_sublist _)
      (List.sorted_insertionSort planeLE planes)

/-- C6: a seed that fails to converge within the iteration budget is
dropped without affecting the rest of the search or raising an error, and
when there are no seeds or no seed converges the call returns an empty
list of image points rather than failing. -/
theorem forward_raytrace_failure_policy (f upd : Point → Point) (beta : Point)
    (budget : Nat) (tol δ : ℤ) :
    forward_raytrace f upd beta [] budget tol δ = [] ∧
    (∀ seeds, (∀ s ∈ seeds, rootfind f upd beta tol budget s = none) →
      forward_raytrace f upd beta seeds budget tol δ = []) ∧
    (∀ s seeds, rootfind f upd beta tol budget s = none →
      forward_raytrace f upd beta (s :: seeds) budget tol δ =
        forward_raytrace f upd beta seeds budget tol δ) := by
  refine ⟨rfl, ?_, ?_⟩
  · intro seeds h
    unfold forward_raytrace
    rw [List.filterMap_eq_nil_iff.mpr h]
    rfl
  · intro s seeds h
    unfold forward_raytrace
    simp [List.filterMap_cons, h]

/-- C6 witness: a concrete non-convergent seed list yields the empty
result. -/
theorem forward_raytrace_failure_policy_witness :
    (∀ s ∈ [((0 : ℤ), (0 : ℤ))],
      rootfind id id (1, 1) 0 0 s = none) ∧
    forward_raytrace id id (1, 1) [((0 : ℤ), (0 : ℤ))] 0 0 0 = [] :=
  ⟨by decide, (forward_raytrace_failure_policy id id (1, 1) 0 0 0).2.1 _ (by decide)⟩

/-- C8: two `forward_raytrace` calls with identical explicit inputs, seeds
and tolerances return the same list (hence the same set) of roots,
whatever the ambient global random state of the calling process is: the
search consults only its explicitly seeded inputs. -/
theorem forward_raytrace_deterministic (g1 g2 : Nat) (f upd : Point → Point)
    (beta : Point) (fov : ℤ) (n_init budget : Nat) (tol δ : ℤ) :
    forward_raytrace_call g1 f upd beta fov n_init budget tol δ =
      forward_raytrace_call g2 f upd beta fov n_init budget tol δ := rfl

/-- C10: an explicit `z_s` keyword argument takes precedence over the
stored Parameter for that one raytrace call (the first conjunct); the
simulator's result never depends on the lens's stored `z_s` value (second
conjunct, for any two stored values `zA`, `zB`); a call hands the state
back unchanged (third conjunct); and a second call made after a first one
behaves exactly as if made on the original state (fourth conjunct). -/
theorem lts_override_precedence_and_frame (alpha : SIEParams → ℚ → Point → Point)
    (br1 br2 : Point → ℚ) (grid : List Point) (P : SIEParams)
    (zA zB z1 z2 : ℚ) (source1 source2 b1 b2 : Bool) :
    (∀ lens theta z, raytraceSIE alpha lens theta (some z) =
      ((theta.1 - (alpha lens.params z theta).1,
        theta.2 - (alpha lens.params z theta).2), lens)) ∧
    (ltsCall alpha br1 br2 grid ⟨⟨P, zA⟩, z1, z2⟩ source1 source2).1 =
      (ltsCall alpha br1 br2 grid ⟨⟨P, zB⟩, z1, z2⟩ source1 source2).1 ∧
    (ltsCall alpha br1 br2 grid ⟨⟨P, zA⟩, z1, z2⟩ source1 source2).2 =
      ⟨⟨P, zA⟩, z1, z2⟩ ∧
    ltsCall alpha br1 br2 grid
        (ltsCall alpha br1 br2 grid ⟨⟨P, zA⟩, z1, z2⟩ b1 b2).2 source1 source2 =
      ltsCall alpha br1 br2 grid ⟨⟨P, zA⟩, z1, z2⟩ source1 source2 := by
  refine ⟨fun lens theta z => rfl, ?_, rfl, rfl⟩
  simp only [ltsCall, raytraceSIE]

/-- The Chebyshev distance from a point to itself is zero. -/
theorem cheb_self (p : Point) : cheb p p = 0 := by
  simp [cheb, iabs]

/-- Whatever is already in the accumulator survives deduplication. -/
theorem mem_dedupeAcc_of_mem_acc (δ : ℤ) :
    ∀ (l acc : List Point) (y : Point), y ∈ acc → y ∈ dedupeAcc δ acc l := by
  intro l
  induction l with
  | nil => intro acc y hy; simpa [dedupeAcc] using hy
  | cons p ps ih =>
    intro acc y hy
    cases hb : acc.any (fun z => decide (near δ z p)) with
    | true => simpa [dedupeAcc, hb] using ih acc y hy
    | false =>
      simp only [dedupeAcc, hb, Bool.false_eq_true, if_false]
      exact ih (p :: acc) y (List.mem_cons_of_mem p hy)

/-- Every point of the input list has a representative within the
deduplication tolerance in the output. -/
theorem dedupeAcc_cover (δ : ℤ) (hδ : 0 ≤ δ) :
    ∀ (l acc : List Point) (x : Point), x ∈ l →
      ∃ y ∈ dedupeAcc δ acc l, near δ y x := by
  intro l
  induction l with
  | nil => intro acc x hx; cases hx
  | cons p ps ih =>
    intro acc x hx
    rcases List.mem_cons.mp hx with rfl | hx
    · cases hb : acc.any (fun z => decide (near δ z x)) with
      | true =>
        obtain ⟨y, hy, hnear⟩ := List.any_eq_true.mp hb
        refine ⟨y, ?_, of_decide_eq_true hnear⟩
        simp only [dedupeAcc, hb, if_true]
        exact mem_dedupeAcc_of_mem_acc δ ps acc y hy
      | false =>
        refine ⟨x, ?_, ?_⟩
        · simp only [dedupeAcc, hb, Bool.false_eq_true, if_false]
          exact mem_dedupeAcc_of_mem_acc δ ps (x :: acc) x (List.mem_cons_self x acc)
        · unfold near
          rw [cheb_self]
          exact hδ
    · cases hb : acc.any (fun z => decide (near δ z p)) with
      | true =>
        simpa [dedupeAcc, hb] using ih acc x hx
      | false =>
        simp only [dedupeAcc, hb, Bool.false_eq_true, if_false]
        exact ih (p :: acc) x hx

/-- Root deduplication keeps a representative within tolerance of every
converged root. -/
theorem dedupe_cover (δ : ℤ) (hδ : 0 ≤ δ) (l : List Point) (x : Point)
    (hx : x ∈ l) : ∃ y ∈ dedupe δ l, near δ y x :=
  dedupeAcc_cover δ hδ l [] x hx

/-- A seed whose residual is already within tolerance converges to itself
for any iteration budget. -/
theorem rootfind_of_near (f upd : Point → Point) (beta : Point) (tol : ℤ)
    (x : Point) (h : near tol (f x) beta) :
    ∀ budget, rootfind f upd beta tol budget x = some x := by
  intro budget
  cases budget <;> simp [rootfind, h]

/-- C1 (amended): when the search is seeded at the image point itself (and
the tolerances are nonnegative), `forward_raytrace` applied to
`beta = raytrace(theta)` returns a set of roots containing a point within
the deduplication tolerance of `theta`.  Unseeded or non-convergent
configurations carry no such guarantee (see the counterexample). -/
theorem forward_raytrace_recovers_seeded_image (f upd : Point → Point)
    (theta : Point) (seeds : List Point) (budget : Nat) (tol δ : ℤ)
    (htol : 0 ≤ tol) (hδ : 0 ≤ δ) (hmem : theta ∈ seeds) :
    ∃ p ∈ forward_raytrace f upd (f theta) seeds budget tol δ, near δ p theta := by
  have hself : near tol (f theta) (f theta) := by
    unfold near; rw [cheb_self]; exact htol
  have hconv : rootfind f upd (f theta) tol budget theta = some theta :=
    rootfind_of_near f upd (f theta) tol theta hself budget
  have hmem2 : theta ∈ seeds.filterMap (rootfind f upd (f theta) tol budget) :=
    List.mem_filterMap.mpr ⟨theta, hmem, hconv⟩
  exact dedupe_cover δ hδ _ theta hmem2

/-- C1 counterexample: for the constant lens map, the image point `(5,5)`
raytraces to `beta = (0,0)`, yet the root search seeded away from it
returns no root within the caller tolerance of `(5,5)`: the round-trip
recovery claim is false without a seeding/convergence proviso. -/
theorem forward_raytrace_misses_image_cex :
    ¬ ∃ p ∈ forward_raytrace (fun _ => ((0 : ℤ), (0 : ℤ))) id
        ((fun _ => ((0 : ℤ), (0 : ℤ))) (5, 5)) [((0 : ℤ), (0 : ℤ))] 3 1 1,
      near 1 p (5, 5) := by decide

/-- C1 witness: the amended round-trip guarantee at a concrete seeded
input. -/
theorem forward_raytrace_recovers_seeded_image_witness :
    (0 : ℤ) ≤ 0 ∧ (0 : ℤ) ≤ 0 ∧ ((1 : ℤ), (2 : ℤ)) ∈ [((1 : ℤ), (2 : ℤ))] ∧
    ∃ p ∈ forward_raytrace id id (id ((1 : ℤ), (2 : ℤ))) [((1 : ℤ), (2 : ℤ))] 0 0 0,
      near 0 p (1, 2) :=
  ⟨le_refl 0, le_refl 0, List.mem_singleton.mpr rfl,
    forward_raytrace_recovers_seeded_image id id (1, 2) [((1 : ℤ), (2 : ℤ))] 0 0 0
      (le_refl 0) (le_refl 0) (List.mem_singleton.mpr rfl)⟩

/-- Packing a forest concatenates the packed views of its trees in declared
order. -/
theorem pack_forest : ∀ cs : List Module,
    (paramsPreList cs).filterMap packEntry = cs.flatMap Module.pack := by
  intro cs
  induction cs with
  | nil => rfl
  | cons c cs ih =>
    simp [paramsPreList, List.filterMap_append, ih, Module.pack]

/-- Erasing a static payload does not change the packed slot of an
entry. -/
theorem packEntry_eraseP (mn : String) (p : Param) :
    packEntry (mn, eraseP p) = packEntry (mn, p) := by
  rcases p with ⟨nm, sh, val⟩
  cases val <;> rfl

/-- Static-payload erasure over a forest commutes with the pre-order
parameter listing. -/
theorem paramsPreList_erase (cs : List Module)
    (ih : ∀ c ∈ cs, c.eraseStatic.paramsPre =
      c.paramsPre.map (fun e => (e.1, eraseP e.2))) :
    paramsPreList (eraseStaticList cs) =
      (paramsPreList cs).map (fun e => (e.1, eraseP e.2)) := by
  induction cs with
  | nil => rfl
  | cons c cs ihl =>
    simp only [paramsPreList, eraseStaticList, List.map_append,
      ih c (List.mem_cons_self c cs),
      ihl (fun c hc => ih c (List.mem_cons_of_mem _ hc))]

/-- Static-payload erasure commutes with the pre-order parameter
listing. -/
theorem paramsPre_erase : ∀ t : Module,
    t.eraseStatic.paramsPre = t.paramsPre.map (fun e => (e.1, eraseP e.2)) := by
  intro t
  induction t using Module.ind with
  | h n ps cs ih =>
    simp only [Module.eraseStatic, Module.paramsPre, List.map_append,
      List.map_map, paramsPreList_erase cs ih]
    rfl

/-- The Packed View depends only on the static/dynamic configuration, not
on the payload of static values. -/
theorem pack_erase (t : Module) : t.eraseStatic.pack = t.pack := by
  unfold Module.pack
  rw [paramsPre_erase, List.filterMap_map]
  congr 1
  funext e
  exact packEntry_eraseP e.1 e.2

/-- C3: the Packed View is produced by a pre-order traversal — a Module's
own parameters in declaration order, then its children in declared order —
and any two trees with the same static/dynamic assignment (the same
configuration after erasing static payloads) have the same ordered packed
view and the same total element count. -/
theorem pack_preorder_and_config_stable :
    (∀ n ps cs, Module.pack (.node n ps cs) =
      ps.filterMap (fun p => if p.isDynamic then some ⟨n, p.name, p.count⟩ else none)
        ++ cs.flatMap Module.pack) ∧
    (∀ t1 t2 : Module, t1.eraseStatic = t2.eraseStatic →
      t1.pack = t2.pack ∧ t1.totalCount = t2.totalCount) := by
  constructor
  · intro n ps cs
    unfold Module.pack
    simp only [Module.paramsPre, List.filterMap_append, List.filterMap_map,
      pack_forest]
    rfl
  · intro t1 t2 h
    have hp : t1.pack = t2.pack := by
      rw [← pack_erase t1, ← pack_erase t2, h]
    exact ⟨hp, by unfold Module.totalCount; rw [hp]⟩

/-- C3 witness: two trees differing only in a static payload have the same
Packed View. -/
theorem pack_preorder_and_config_stable_witness :
    (Module.node "sim" [⟨"z_s", [], some [(3 : ℚ)]⟩, ⟨"x0", [], none⟩]
        []).eraseStatic =
      (Module.node "sim" [⟨"z_s", [], some [(7 : ℚ)]⟩, ⟨"x0", [], none⟩]
        []).eraseStatic ∧
    (Module.node "sim" [⟨"z_s", [], some [(3 : ℚ)]⟩, ⟨"x0", [], none⟩] []).pack =
      (Module.node "sim" [⟨"z_s", [], some [(7 : ℚ)]⟩, ⟨"x0", [], none⟩] []).pack :=
  ⟨by rfl,
    (pack_preorder_and_config_stable.2 _ _ (by rfl)).1⟩

/-- Inversion of a packed slot: it comes from a dynamic entry and carries
its qualified name and count. -/
theorem packEntry_eq_some {e : String × Param} {s : Slot}
    (h : packEntry e = some s) :
    e.2.isDynamic = true ∧ s = ⟨e.1, e.2.name, e.2.count⟩ := by
  by_cases hd : e.2.isDynamic
  · refine ⟨hd, ?_⟩
    unfold packEntry at h
    rw [if_pos hd] at h
    exact (Option.some.inj h).symm
  · unfold packEntry at h
    rw [if_neg hd] at h
    cases h

/-- Length of a slot-wise flattened value assignment. -/
theorem flat_len (val : (String × String) → List ℚ) :
    ∀ slots : List Slot, (∀ s ∈ slots, (val s.key).length = s.count) →
      ((slots.flatMap (fun s => val s.key)).length = (slots.map Slot.count).sum) := by
  intro slots
  induction slots with
  | nil => intro _; rfl
  | cons s ss ih =>
    intro h
    simp only [List.flatMap_cons, List.length_append, List.map_cons, List.sum_cons,
      h s (List.mem_cons_self s ss), ih (fun x hx => h x (List.mem_cons_of_mem _ hx))]

/-- Consuming the flattened per-slot values positionally resolves every
dynamic parameter to exactly its own slot's values. -/
theorem buildCtxVec_flat (val : (String × String) → List ℚ) :
    ∀ l : List (String × Param),
      (∀ e ∈ l, e.2.isDynamic = true → (val (e.1, e.2.name)).length = e.2.count) →
      buildCtxVec l ((l.filterMap packEntry).flatMap (fun s => val s.key)) =
        l.map (fun e =>
          ((e.1, e.2.name), some (e.2.value.getD (val (e.1, e.2.name))))) := by
  intro l
  induction l with
  | nil => intro _; rfl
  | cons e rest ih =>
    intro h
    obtain ⟨mn, p⟩ := e
    have ihr := ih (fun x hx => h x (List.mem_cons_of_mem _ hx))
    rcases hv : p.value with _ | w
    · have hdyn : p.isDynamic = true := by simp [Param.isDynamic, hv]
      have hcnt : (val (mn, p.name)).length = p.count :=
        h (mn, p) (List.mem_cons_self _ _) hdyn
      have hpe : packEntry (mn, p) = some ⟨mn, p.name, p.count⟩ := by
        unfold packEntry
        rw [if_pos hdyn]
      simp only [List.filterMap_cons, hpe, List.flatMap_cons, Slot.key]
      simp only [buildCtxVec, hv]
      rw [List.take_left' hcnt, List.drop_left' hcnt]
      simp only [List.map_cons, hv, Option.getD_none]
      exact congrArg _ ihr
    · have hpe : packEntry (mn, p) = none := by
        unfold packEntry
        rw [if_neg (by simp [Param.isDynamic, hv])]
      simp only [List.filterMap_cons, hpe]
      simp only [buildCtxVec, hv]
      simp only [List.map_cons, hv, Option.getD_some]
      exact congrArg _ ihr

/-- C2: packing a Module tree and then resolving with the identity vector
(the packed-order concatenation of each dynamic parameter's own values)
produces a resolved context in which every dynamic parameter carries
exactly its own values and every static parameter keeps its fixed
value. -/
theorem pack_resolve_identity_roundtrip (t : Module)
    (val : (String × String) → List ℚ)
    (h : ∀ e ∈ t.paramsPre, e.2.isDynamic = true →
      (val (e.1, e.2.name)).length = e.2.count) :
    t.resolveVector (t.pack.flatMap (fun s => val s.key)) =
      .ok (t.paramsPre.map (fun e =>
        ((e.1, e.2.name), some (e.2.value.getD (val (e.1, e.2.name)))))) := by
  have hlen : (t.pack.flatMap (fun s => val s.key)).length = t.totalCount := by
    unfold Module.totalCount
    apply flat_len
    intro s hs
    obtain ⟨e, he, hpe⟩ := List.mem_filterMap.mp hs
    obtain ⟨hdyn, rfl⟩ := packEntry_eq_some hpe
    exact h e he hdyn
  unfold Module.resolveVector
  rw [if_pos hlen]
  exact congrArg _ (buildCtxVec_flat val t.paramsPre h)

/-- C2 witness: the identity round trip on a concrete two-module tree. -/
theorem pack_resolve_identity_roundtrip_witness :
    (∀ e ∈ demoTree2.paramsPre, e.2.isDynamic = true →
      (demoVal2 (e.1, e.2.name)).length = e.2.count) ∧
    demoTree2.resolveVector (demoTree2.pack.flatMap (fun s => demoVal2 s.key)) =
      .ok (demoTree2.paramsPre.map (fun e =>
        ((e.1, e.2.name), some (e.2.value.getD (demoVal2 (e.1, e.2.name)))))) :=
  ⟨by decide, pack_resolve_identity_roundtrip demoTree2 demoVal2 (by decide)⟩

/-- Lookup skips a non-matching head entry. -/
theorem alookup_cons_ne {α : Type} (k k0 : String × String) (a : α)
    (l : List ((String × String) × α)) (h : k ≠ k0) :
    alookup ((k, a) :: l) k0 = alookup l k0 := by
  rw [show alookup ((k, a) :: l) k0 = if k = k0 then some a else alookup l k0 from rfl,
    if_neg h]

/-- The keys of the sliced assignment are the packed qualified names in
order. -/
theorem sliceAssign_keys : ∀ (slots : List Slot) (v : List ℚ),
    (sliceAssign slots v).map Prod.fst = slots.map Slot.key := by
  intro slots
  induction slots with
  | nil => intro v; rfl
  | cons s ss ih => intro v; simp [sliceAssign, ih]

/-- With globally unique qualified names, the pre-order search for a
member entry's qualified name finds that entry. -/
theorem find?_of_nodup_keys :
    ∀ (l : List (String × Param)) (e : String × Param),
      ((l.map (fun x => (x.1, x.2.name))).Nodup) → e ∈ l →
      l.find? (fun x => x.1 = e.1 ∧ x.2.name = e.2.name) = some e := by
  intro l
  induction l with
  | nil => intro e _ he; cases he
  | cons hd tl ih =>
    intro e hnd he
    rw [List.map_cons, List.nodup_cons] at hnd
    by_cases hp : (hd.1 = e.1 ∧ hd.2.name = e.2.name)
    · have hfind : List.find? (fun x => decide (x.1 = e.1 ∧ x.2.name = e.2.name)) (hd :: tl)
          = some hd := List.find?_cons_of_pos _ (by simpa using hp)
      rcases List.mem_cons.mp he with rfl | he2
      · simpa using hfind
      · exfalso
        apply hnd.1
        have : (e.1, e.2.name) ∈ tl.map (fun x => (x.1, x.2.name)) :=
          List.mem_map.mpr ⟨e, he2, rfl⟩
        rw [← hp.1, ← hp.2] at this
        exact this
    · have hne : e ≠ hd := by
        intro hcontra
        subst hcontra
        exact hp ⟨rfl, rfl⟩
      have he2 : e ∈ tl := by
        rcases List.mem_cons.mp he with rfl | h2
        · exact absurd rfl hne
        · exact h2
      rw [List.find?_cons_of_neg _ (by simpa using hp)]
      exact ih e hnd.2 he2

/-- In a well-formed tree every packed slot's qualified name locates a
dynamic Parameter. -/
theorem findParam_dynamic_of_pack (t : Module) (hwf : t.wellFormed)
    (s : Slot) (hs : s ∈ t.pack) : t.goodKey s.key := by
  obtain ⟨e, he, hpe⟩ := List.mem_filterMap.mp hs
  obtain ⟨hdyn, rfl⟩ := packEntry_eq_some hpe
  refine ⟨e.2, ?_, hdyn⟩
  unfold Module.findParam
  rw [show (⟨e.1, e.2.name, e.2.count⟩ : Slot).key = (e.1, e.2.name) from rfl]
  rw [find?_of_nodup_keys t.paramsPre e hwf he]
  rfl

/-- Validation succeeds on a list of keys that all locate dynamic
Parameters. -/
theorem validateKeys_ok_of (t : Module) :
    ∀ ks : List (String × String), (∀ k ∈ ks, t.goodKey k) →
      validateKeys t ks = .ok () := by
  intro ks
  induction ks with
  | nil => intro _; rfl
  | cons k ks ih =>
    intro h
    obtain ⟨p, hfind, hdyn⟩ := h k (List.mem_cons_self k ks)
    unfold validateKeys
    rw [hfind]
    simp only [hdyn, if_true]
    exact ih (fun x hx => h x (List.mem_cons_of_mem _ hx))

/-- The resolved context only reads the assignment at dynamic qualified
names. -/
theorem buildCtxMap_congr (l : List (String × Param))
    (a1 a2 : (String × String) → Option (List ℚ))
    (h : ∀ e ∈ l, e.2.value = none → a1 (e.1, e.2.name) = a2 (e.1, e.2.name)) :
    buildCtxMap l a1 = buildCtxMap l a2 := by
  unfold buildCtxMap
  apply List.map_congr_left
  intro e he
  rcases hv : e.2.value with _ | w
  · simp only [hv, h e he hv]
  · simp only [hv]

/-- Positional consumption of an ordered sequence agrees with keyed lookup
of the corresponding sliced mapping, for unique qualified names. -/
theorem buildCtxVec_eq_buildCtxMap :
    ∀ (l : List (String × Param)) (v : List ℚ),
      ((l.map (fun e => (e.1, e.2.name))).Nodup) →
      buildCtxVec l v =
        buildCtxMap l (alookup (sliceAssign (l.filterMap packEntry) v)) := by
  intro l
  induction l with
  | nil => intro v _; rfl
  | cons e rest ih =>
    intro v hnd
    rw [List.map_cons, List.nodup_cons] at hnd
    obtain ⟨mn, p⟩ := e
    rcases hv : p.value with _ | w
    · have hdyn : p.isDynamic = true := by simp [Param.isDynamic, hv]
      have hpe : packEntry (mn, p) = some ⟨mn, p.name, p.count⟩ := by
        unfold packEntry
        rw [if_pos hdyn]
      simp only [List.filterMap_cons, hpe]
      simp only [buildCtxVec, buildCtxMap, hv, List.map_cons, sliceAssign, Slot.key]
      congr 1
      · unfold alookup
        rw [if_pos rfl]
      · rw [ih (v.drop p.count) hnd.2]
        apply buildCtxMap_congr
        intro e2 he2 hval
        refine (alookup_cons_ne _ _ _ _ ?_).symm
        intro hcontra
        apply hnd.1
        have : (e2.1, e2.2.name) ∈ rest.map (fun x => (x.1, x.2.name)) :=
          List.mem_map.mpr ⟨e2, he2, rfl⟩
        rw [← hcontra] at this
        exact this
    · have hpe : packEntry (mn, p) = none := by
        unfold packEntry
        rw [if_neg (by simp [Param.isDynamic, hv])]
      simp only [List.filterMap_cons, hpe]
      simp only [buildCtxVec, buildCtxMap, hv, List.map_cons]
      congr 1
      rw [ih v hnd.2]
      rfl

/-- C5: resolving through the flat ordered vector and resolving through
the nested mapping that carries the same values (the vector sliced along
the Packed View) produce the same resolved context, so any computation run
on the resolved context returns equal results for both input forms. -/
theorem resolve_vector_mapping_equiv (t : Module) (v : List ℚ)
    (hwf : t.wellFormed) (hlen : v.length = t.totalCount) :
    t.resolveMapping (sliceAssign t.pack v) = t.resolveVector v := by
  have hok : validateKeys t ((sliceAssign t.pack v).map Prod.fst) = .ok () := by
    rw [sliceAssign_keys]
    apply validateKeys_ok_of
    intro k hk
    obtain ⟨s, hs, rfl⟩ := List.mem_map.mp hk
    exact findParam_dynamic_of_pack t hwf s hs
  unfold Module.resolveMapping Module.resolveVector
  rw [hok, if_pos hlen]
  exact congrArg Except.ok (buildCtxVec_eq_buildCtxMap t.paramsPre v hwf).symm

/-- C5 witness: both input forms resolve a concrete tree to the same
context. -/
theorem resolve_vector_mapping_equiv_witness :
    demoTree5.wellFormed ∧ ([(2 : ℚ), (5 : ℚ)]).length = demoTree5.totalCount ∧
    demoTree5.resolveMapping (sliceAssign demoTree5.pack [(2 : ℚ), (5 : ℚ)]) =
      demoTree5.resolveVector [(2 : ℚ), (5 : ℚ)] :=
  ⟨by decide, by decide,
    resolve_vector_mapping_equiv demoTree5 [(2 : ℚ), (5 : ℚ)] (by decide) (by decide)⟩

/-- Validation succeeds exactly when every supplied key locates a dynamic
Parameter. -/
theorem validateKeys_ok_iff (t : Module) :
    ∀ ks : List (String × String),
      (validateKeys t ks = .ok () ↔ ∀ k ∈ ks, t.goodKey k) := by
  intro ks
  induction ks with
  | nil => exact ⟨fun _ k hk => absurd hk (List.not_mem_nil k), fun _ => rfl⟩
  | cons k ks ih =>
    constructor
    · intro hok
      rcases hfind : t.findParam k with _ | p
      · simp only [validateKeys, hfind] at hok
        exact Except.noConfusion hok
      · by_cases hdyn : p.isDynamic
        · simp only [validateKeys, hfind, hdyn, if_true] at hok
          intro x hx
          rcases List.mem_cons.mp hx with rfl | hx2
          · exact ⟨p, hfind, hdyn⟩
          · exact (ih.mp hok) x hx2
        · simp only [validateKeys, hfind, hdyn, Bool.false_eq_true, if_false] at hok
          exact Except.noConfusion hok
    · exact validateKeys_ok_of t (k :: ks)

/-- The first offending key of a mapping determines the validation error:
an unknown path raises the unknown-parameter error, a static path raises
the static-override error. -/
theorem validateKeys_prefix_error (t : Module) (k : String × String) :
    ∀ (pre post : List (String × String)), (∀ x ∈ pre, t.goodKey x) →
      (t.findParam k = none →
        validateKeys t (pre ++ k :: post) = .error (.unknownParameterError k)) ∧
      (∀ p, t.findParam k = some p → p.isDynamic = false →
        validateKeys t (pre ++ k :: post) =
          .error (.staticParameterOverrideError k)) := by
  intro pre
  induction pre with
  | nil =>
    intro post _
    constructor
    · intro hnone
      rw [List.nil_append]
      simp only [validateKeys, hnone]
    · intro p hfind hdyn
      rw [List.nil_append]
      simp only [validateKeys, hfind, hdyn, Bool.false_eq_true, if_false]
  | cons x pre ih =>
    intro post hgood
    obtain ⟨p0, hfind0, hdyn0⟩ := hgood x (List.mem_cons_self x pre)
    have step : ∀ ks, validateKeys t (x :: ks) = validateKeys t ks := by
      intro ks
      simp only [validateKeys, hfind0, hdyn0, if_true]
    have ihx := ih post (fun y hy => hgood y (List.mem_cons_of_mem _ hy))
    constructor
    · intro hnone
      rw [List.cons_append, step]
      exact ihx.1 hnone
    · intro p hfind hdyn
      rw [List.cons_append, step]
      exact ihx.2 p hfind hdyn

/-- C9: resolving a nested mapping succeeds exactly when every supplied
qualified name locates a currently dynamic Parameter — so a static
parameter can never be overridden through the packing input path — and at
the first offending key the call fails with the unknown-parameter error
when the path does not exist and with the static-override error when the
path names a static Parameter. -/
theorem resolve_mapping_key_errors (t : Module)
    (m : List ((String × String) × List ℚ)) :
    ((∀ k ∈ m.map Prod.fst, t.goodKey k) ↔ ∃ c, t.resolveMapping m = .ok c) ∧
    (∀ pre k post, m.map Prod.fst = pre ++ k :: post →
      (∀ x ∈ pre, t.goodKey x) →
      (t.findParam k = none →
        t.resolveMapping m = .error (.unknownParameterError k)) ∧
      (∀ p, t.findParam k = some p → p.isDynamic = false →
        t.resolveMapping m = .error (.staticParameterOverrideError k))) := by
  constructor
  · constructor
    · intro h
      refine ⟨buildCtxMap t.paramsPre (alookup m), ?_⟩
      unfold Module.resolveMapping
      rw [(validateKeys_ok_iff t (m.map Prod.fst)).mpr h]
    · rintro ⟨c, hc⟩
      rcases hval : validateKeys t (m.map Prod.fst) with e | u
      · simp only [Module.resolveMapping, hval] at hc
        exact Except.noConfusion hc
      · obtain ⟨⟩ := u
        exact (validateKeys_ok_iff t (m.map Prod.fst)).mp hval
  · intro pre k post hsplit hgood
    have hpe := validateKeys_prefix_error t k pre post hgood
    constructor
    · intro hnone
      simp only [Module.resolveMapping, hsplit, hpe.1 hnone]
    · intro p hfind hdyn
      simp only [Module.resolveMapping, hsplit, hpe.2 p hfind hdyn]

/-- C9 witness: overriding a concrete static Parameter through the mapping
path fails with the static-override error. -/
theorem resolve_mapping_key_errors_witness :
    demoMap9.map Prod.fst = [] ++ ("mylens", "q") :: [] ∧
    demoTree9.findParam ("mylens", "q") = some ⟨"q", [], some [(2 : ℚ)]⟩ ∧
    (⟨"q", [], some [(2 : ℚ)]⟩ : Param).isDynamic = false ∧
    demoTree9.resolveMapping demoMap9 =
      .error (.staticParameterOverrideError ("mylens", "q")) :=
  ⟨rfl, by decide, rfl,
    ((resolve_mapping_key_errors demoTree9 demoMap9).2 [] ("mylens", "q") [] rfl
      (fun x hx => absurd hx (List.not_mem_nil x))).2
      ⟨"q", [], some [(2 : ℚ)]⟩ (by decide) rfl⟩

/-- Membership in a forest's pre-order parameter listing. -/
theorem mem_paramsPreList {e : String × Param} :
    ∀ {cs : List Module} {c : Module}, c ∈ cs → e ∈ c.paramsPre →
      e ∈ paramsPreList cs := by
  intro cs
  induction cs with
  | nil => intro c hc; cases hc
  | cons d ds ih =>
    intro c hc he
    rcases List.mem_cons.mp hc with rfl | hc2
    · exact List.mem_append.mpr (Or.inl he)
    · exact List.mem_append.mpr (Or.inr (ih hc2 he))

/-- Undoing an assignment over a forest, child by child. -/
theorem setParamValueList_restore (mn pn : String) (w : List ℚ) :
    ∀ cs : List Module,
      (∀ c ∈ cs, (c.setParamValue mn pn (some w)).setParamValue mn pn none = c) →
      setParamValueList (setParamValueList cs mn pn (some w)) mn pn none = cs := by
  intro cs
  induction cs with
  | nil => intro _; rfl
  | cons c cs ih =>
    intro h
    simp only [setParamValueList, h c (List.mem_cons_self c cs),
      ih (fun x hx => h x (List.mem_cons_of_mem _ hx))]

/-- Assigning a concrete value to a currently dynamic Parameter and then
assigning `None` restores the original tree exactly. -/
theorem setParam_restore (mn pn : String) (w : List ℚ) : ∀ t : Module,
    (∀ e ∈ t.paramsPre, e.1 = mn → e.2.name = pn → e.2.value = none) →
    (t.setParamValue mn pn (some w)).setParamValue mn pn none = t := by
  intro t
  induction t using Module.ind with
  | h n ps cs ih =>
    intro h
    simp only [Module.setParamValue, List.map_map]
    congr 1
    · have hps : ∀ p ∈ ps,
          ((fun p => if n = mn ∧ p.name = pn then { p with value := none } else p) ∘
            (fun p => if n = mn ∧ p.name = pn then { p with value := some w } else p)) p
            = p := by
        intro p hp
        by_cases hcond : n = mn ∧ p.name = pn
        · have hmem : (n, p) ∈ (Module.node n ps cs).paramsPre := by
            simp only [Module.paramsPre]
            exact List.mem_append.mpr (Or.inl (List.mem_map.mpr ⟨p, hp, rfl⟩))
          have hval : p.value = none := h (n, p) hmem hcond.1 hcond.2
          simp only [Function.comp]
          rw [if_pos hcond, if_pos (show n = mn ∧ (Param.mk p.name p.shape (some w)).name = pn
            from ⟨hcond.1, hcond.2⟩)]
          rcases p with ⟨nm, sh, val⟩
          simp only at hval
          rw [hval]
        · simp only [Function.comp]
          rw [if_neg hcond, if_neg hcond]
      rw [List.map_congr_left hps]
      exact List.map_id' ps
    · exact setParamValueList_restore mn pn w cs
        (fun c hc => ih c hc (fun e he h1 h2 =>
          h e (by
            simp only [Module.paramsPre]
            exact List.mem_append.mpr (Or.inr (mem_paramsPreList hc he))) h1 h2))

/-- C7: assigning a concrete value to a dynamic Parameter and later
assigning `None` makes it dynamic again, restores the tree (the rest
unchanged), and the Parameter reappears in the Packed View at exactly the
position it occupied before: the whole packed view is unchanged. -/
theorem static_flip_restores_pack (t : Module) (mn pn : String) (w : List ℚ)
    (h : ∀ e ∈ t.paramsPre, e.1 = mn → e.2.name = pn → e.2.value = none) :
    (t.setParamValue mn pn (some w)).setParamValue mn pn none = t ∧
    ((t.setParamValue mn pn (some w)).setParamValue mn pn none).pack = t.pack := by
  have hr := setParam_restore mn pn w t h
  exact ⟨hr, by rw [hr]⟩

/-- C7 witness: the static-and-back flip on a concrete tree leaves its
Packed View unchanged. -/
theorem static_flip_restores_pack_witness :
    (∀ e ∈ demoTree7.paramsPre, e.1 = "lenslight" → e.2.name = "x0" →
      e.2.value = none) ∧
    ((demoTree7.setParamValue "lenslight" "x0" (some [(4 : ℚ)])).setParamValue
        "lenslight" "x0" none).pack = demoTree7.pack :=
  ⟨by decide,
    (static_flip_restores_pack demoTree7 "lenslight" "x0" [(4 : ℚ)] (by decide)).2⟩

end Caustics
